import Mathlib

/-!
Verification development for the swiss-system pairing core of bbpPairings
(`src/swisssystems/common.h`).  The header under `src/` declares the data
model (`Pairing`, the exception kinds, `Info`) and defines inline the color
compatibility predicate, the three-argument `Pairing` constructor and the
default `Info::updateAccelerations` body; those are embedded directly from
the source.  The implementations of `computeMatching`,
`findFirstColorDifference` and `sortResults`, and the `tournament` data
types, live in translation units that are not part of `src/`; they are
modelled from the specification, as marked in their doc comments.
-/

namespace tournament

/-- Embeds `tournament::Color` (referenced throughout `common.h`):
an enumeration of WHITE, BLACK and NONE. -/
inductive Color : Type
  | COLOR_WHITE : Color
  | COLOR_BLACK : Color
  | COLOR_NONE : Color
deriving DecidableEq, Repr, Inhabited

/-- Modelled from the spec: `tournament::Player` (its header is not under
`src/`): identity is the position in the tournament's player list; the
fields carry the activity flag, current (accelerated) score, count of prior
byes, list of past opponents, the chronological round-by-round color
history (earliest round first) and the due color derived from history. -/
structure Player : Type where
  isActive : Bool
  score : Nat
  byeCount : Nat
  opponents : List Nat
  colorHistory : List Color
  dueColor : Color
deriving DecidableEq, Repr, Inhabited

/-- Modelled from the spec: `tournament::Tournament` (its header is not
under `src/`): the aggregate of all players; a `player_index` is a dense
stable index into this list. -/
structure Tournament : Type where
  players : List Player
deriving DecidableEq, Repr, Inhabited

/-- The player stored at a given index (default player when out of range;
the spec calls a dangling index a programming error). -/
def playerAt (t : Tournament) (i : Nat) : Player :=
  t.players.getD i default

end tournament

namespace swisssystems

open tournament

/-- Embeds the two exception kinds of `common.h`
(`NoValidPairingException`, `UnapplicableFeatureException`) as a tagged
union, each carrying its message string. -/
inductive SwissException : Type
  | NoValidPairingException : String → SwissException
  | UnapplicableFeatureException : String → SwissException
deriving DecidableEq, Repr

/-- Embeds `swisssystems::Pairing`: the assignment of two players to play
each other, with colors. -/
structure Pairing : Type where
  white : Nat
  black : Nat
deriving DecidableEq, Repr

/-- Embeds the three-argument constructor
`Pairing(player0, player1, player0color)` of `common.h`:
`white = player0color == COLOR_WHITE ? player0 : player1` and
`black = player0color == COLOR_WHITE ? player1 : player0`. -/
def Pairing.ofPlayer0Color (player0 player1 : Nat) (player0color : Color) :
    Pairing where
  white := if player0color = Color.COLOR_WHITE then player0 else player1
  black := if player0color = Color.COLOR_WHITE then player1 else player0

/-- Embeds `swisssystems::colorPreferencesAreCompatible` from `common.h`:
`preference0 != preference1 || preference0 == COLOR_NONE ||
preference1 == COLOR_NONE`. -/
def colorPreferencesAreCompatible
    (preference0 preference1 : Color) : Bool :=
  preference0 != preference1
    || preference0 == Color.COLOR_NONE
    || preference1 == Color.COLOR_NONE

/-- Embeds the default body of `Info::updateAccelerations` from `common.h`
in state-passing style: the body consists of a single `throw` of
`UnapplicableFeatureException`, performed before any access to the
tournament, so the function returns the error together with the untouched
tournament state. -/
def updateAccelerations (t : Tournament) :
    Except SwissException Unit × Tournament :=
  (Except.error (SwissException.UnapplicableFeatureException
    "The selected Swiss system does not have a default acceleration system."),
   t)

/-- Modelled from the spec: the implementation of
`swisssystems::findFirstColorDifference` (declared in `common.h`, defined
in a translation unit that is not under `src/`).  The scan walks the two
color histories from the most recent round backward (the arguments are the
reversed chronological histories) and returns the colors the two players
had at the first round where the histories diverge; the result is
NONE/NONE when one history is exhausted without a divergence. -/
def findFirstColorDifferenceScan :
    List Color → List Color → Color × Color
  | [], _ => (Color.COLOR_NONE, Color.COLOR_NONE)
  | _ :: _, [] => (Color.COLOR_NONE, Color.COLOR_NONE)
  | c0 :: h0, c1 :: h1 =>
      if c0 = c1 then findFirstColorDifferenceScan h0 h1 else (c0, c1)

/-- Modelled from the spec: `findFirstColorDifference` on two players
scans their chronological round-by-round color histories from the most
recent round backward and reports the colors at the first (deepest
surviving) point of divergence. -/
def findFirstColorDifference (player0 player1 : Player) : Color × Color :=
  findFirstColorDifferenceScan
    player0.colorHistory.reverse player1.colorHistory.reverse

/-- Modelled from the spec: the board score of a pairing used by the
Result Orderer, the combined score of its two players. -/
def scoreSum (t : Tournament) (p : Pairing) : Nat :=
  (playerAt t p.white).score + (playerAt t p.black).score

/-- Modelled from the spec: the Result Orderer's strict comparison
(implementation of `sortResults` is not under `src/`): primary key the
board number, assigned by descending combined score of the pairing;
secondary key a stable pre-existing rank, here the white player's
index. -/
def resultsPrecede (t : Tournament) (p q : Pairing) : Bool :=
  decide (scoreSum t q < scoreSum t p)
    || (decide (scoreSum t p = scoreSum t q) && decide (p.white < q.white))

/-- The non-strict companion of `resultsPrecede`: `p` does not come
strictly after `q`. -/
def resultsLE (t : Tournament) (p q : Pairing) : Prop :=
  resultsPrecede t q p = false

instance (t : Tournament) : DecidableRel (resultsLE t) := fun p q =>
  inferInstanceAs (Decidable (resultsPrecede t q p = false))

/-- Modelled from the spec: `sortResults` sorts the round's pairings by
the Result Orderer's ordering, with a stable sort. -/
def sortResults (results : List Pairing) (t : Tournament) : List Pairing :=
  results.insertionSort (resultsLE t)

/-- The indices of the active (non-withdrawn) players of the tournament,
in index order. -/
def activePlayers (t : Tournament) : List Nat :=
  (List.range t.players.length).filter (fun i => (playerAt t i).isActive)

/-- Modelled from the spec: the Preference Model's legality predicate
(section 3 invariants): two players may face each other when they have
never previously played each other and their due colors are compatible. -/
def canPair (t : Tournament) (i j : Nat) : Bool :=
  !((playerAt t i).opponents.contains j
      || (playerAt t j).opponents.contains i)
    && colorPreferencesAreCompatible
        (playerAt t i).dueColor (playerAt t j).dueColor

/-- Modelled from the spec: the Color Allocator (section 4.4), returning
player0's color.  A lone established due color is honored; opposite due
colors give each player their preference; NONE/NONE and same-color
clashes resolve in favor of player0, the higher-ranked player in the
engine's iteration order (the history-strength and
`findFirstColorDifference` tie-breaks of a same-color clash are not
modelled; they only influence which concrete color player0 receives,
never which players are paired). -/
def allocateColor (t : Tournament) (i j : Nat) : Color :=
  match (playerAt t i).dueColor, (playerAt t j).dueColor with
  | Color.COLOR_NONE, Color.COLOR_WHITE => Color.COLOR_BLACK
  | Color.COLOR_NONE, _ => Color.COLOR_WHITE
  | d0, _ => d0

/-- All ways of removing one element from a list: each element together
with the remaining list. -/
def removals {α : Type} : List α → List (α × List α)
  | [] => []
  | y :: ys => (y, ys) :: (removals ys).map (fun p => (p.1, y :: p.2))

/-- Modelled from the spec: the Matching Engine's backtracking search
(section 4.3; the implementations of `Info::computeMatching` are not under
`src/`).  The players are processed in list order (descending score
groups); the first player is paired against each eligible candidate in
turn, backtracking across candidates when the remainder cannot be
completed — the spec's candidate-swapping and floater propagation amount
to this exhaustive search over partners.  The lexicographic penalty
optimisation (section 4.3 a-d) only selects among complete legal
matchings and is not modelled; it does not affect which players are
covered.  The fuel argument bounds the recursion depth and is initialised
above the list length. -/
def searchPairs (t : Tournament) : Nat → List Nat → Option (List Pairing)
  | 0, _ => none
  | _ + 1, [] => some []
  | fuel + 1, x :: rest =>
      (removals rest).findSome? (fun yr =>
        if canPair t x yr.1 then
          (searchPairs t fuel yr.2).map
            (fun ps => Pairing.ofPlayer0Color x yr.1 (allocateColor t x yr.1) :: ps)
        else none)

/-- Modelled from the spec: the documented bye priority rule — fewest
prior byes, then lowest score, then fixed index order. -/
def byePriorityLE (t : Tournament) (i j : Nat) : Prop :=
  (decide ((playerAt t i).byeCount < (playerAt t j).byeCount)
    || (decide ((playerAt t i).byeCount = (playerAt t j).byeCount)
        && (decide ((playerAt t i).score < (playerAt t j).score)
            || (decide ((playerAt t i).score = (playerAt t j).score)
                && decide (i ≤ j))))) = true

instance (t : Tournament) : DecidableRel (byePriorityLE t) := fun _i _j =>
  inferInstanceAs (Decidable (_ = true))

/-- The active players ordered by bye priority: candidates for receiving
the bye in an odd round, most deserving first. -/
def byeCandidates (t : Tournament) : List Nat :=
  (activePlayers t).insertionSort (byePriorityLE t)

/-- Modelled from the spec: `Info::computeMatching` (its implementations
are not under `src/`).  With an even number of active players the engine
searches for a complete legal pairing of all of them; with an odd number
it guarantees exactly one bye, trying bye recipients in priority order and
pairing the remaining players.  When the search exhausts every
backtracking option the computation fails with the no-valid-pairing
condition. -/
def computeMatching (t : Tournament) :
    Except SwissException (List Pairing × Option Nat) :=
  if (activePlayers t).length % 2 = 0 then
    match searchPairs t ((activePlayers t).length + 1) (activePlayers t) with
    | some ps => Except.ok (ps, none)
    | none => Except.error (SwissException.NoValidPairingException "")
  else
    match (byeCandidates t).findSome? (fun b =>
        (searchPairs t ((activePlayers t).length + 1)
            ((activePlayers t).erase b)).map
          (fun ps => (ps, b))) with
    | some r => Except.ok (r.1, some r.2)
    | none => Except.error (SwissException.NoValidPairingException "")

/-- The players mentioned by a list of pairings, white then black, in
order. -/
def matchingMembers : List Pairing → List Nat
  | [] => []
  | p :: ps => p.white :: p.black :: matchingMembers ps

end swisssystems

namespace swisssystems

open tournament Color

/-- Scanning a color history against itself finds no divergence. -/
theorem findFirstColorDifferenceScan_self :
    ∀ l : List Color,
      findFirstColorDifferenceScan l l = (COLOR_NONE, COLOR_NONE) := by
  intro l
  induction l with
  | nil => rfl
  | cons c h ih => simp [findFirstColorDifferenceScan, ih]

/-- Scanning two histories that agree on a common recent segment and then
diverge reports the colors at the divergence. -/
theorem findFirstColorDifferenceScan_append {c0 c1 : Color}
    (hne : c0 ≠ c1) :
    ∀ l : List Color,
      findFirstColorDifferenceScan (l ++ [c0]) (l ++ [c1]) = (c0, c1) := by
  intro l
  induction l with
  | nil => simp [findFirstColorDifferenceScan, hne]
  | cons c h ih => simp [findFirstColorDifferenceScan, ih]

/-- C2: `colorPreferencesAreCompatible(a, b)` returns true if and only if
it is not the case that `a` and `b` are the same concrete (non-NONE)
color; it is a total function on the finite `Color` enumeration. -/
theorem colorPreferencesAreCompatible_iff :
    ∀ a b : Color,
      colorPreferencesAreCompatible a b = true
        ↔ ¬(a = b ∧ a ≠ COLOR_NONE) := by
  intro a b
  cases a <;> cases b <;> simp [colorPreferencesAreCompatible]

/-- C3: `colorPreferencesAreCompatible` is symmetric, and it returns true
whenever either argument is NONE, including the NONE/NONE case. -/
theorem colorPreferencesAreCompatible_symm_none :
    (∀ a b : Color,
        colorPreferencesAreCompatible a b
          = colorPreferencesAreCompatible b a)
      ∧ (∀ b : Color,
          colorPreferencesAreCompatible COLOR_NONE b = true
            ∧ colorPreferencesAreCompatible b COLOR_NONE = true) := by
  constructor
  · intro a b
    cases a <;> cases b <;> rfl
  · intro b
    cases b <;> exact ⟨rfl, rfl⟩

/-- C5: the three-argument `Pairing` constructor resolves the reference
color of player0: with WHITE, white is player0 and black is player1; with
BLACK, white is player1 and black is player0. -/
theorem Pairing.ofPlayer0Color_resolves :
    ∀ p0 p1 : Nat,
      Pairing.ofPlayer0Color p0 p1 COLOR_WHITE = ⟨p0, p1⟩
        ∧ Pairing.ofPlayer0Color p0 p1 COLOR_BLACK = ⟨p1, p0⟩ := by
  intro p0 p1
  exact ⟨rfl, rfl⟩

/-- C9: with reference color NONE, the three-argument `Pairing`
constructor assigns white = player1 and black = player0, exactly as if
player0's color were BLACK; NONE is not rejected or treated as a distinct
case. -/
theorem Pairing.ofPlayer0Color_none :
    ∀ p0 p1 : Nat,
      Pairing.ofPlayer0Color p0 p1 COLOR_NONE = ⟨p1, p0⟩
        ∧ Pairing.ofPlayer0Color p0 p1 COLOR_NONE
            = Pairing.ofPlayer0Color p0 p1 COLOR_BLACK := by
  intro p0 p1
  exact ⟨rfl, rfl⟩

/-- C4: the default `updateAccelerations` raises the
`UnapplicableFeatureException` carrying the message naming the missing
default acceleration system, for every tournament; it never raises
`NoValidPairingException`, and the two exception kinds are distinct
constructors, hence distinguishable. -/
theorem updateAccelerations_unapplicableFeature :
    ∀ t : Tournament,
      (updateAccelerations t).1
          = Except.error (SwissException.UnapplicableFeatureException
              "The selected Swiss system does not have a default acceleration system.")
        ∧ (∀ m : String,
            (updateAccelerations t).1
              ≠ Except.error (SwissException.NoValidPairingException m))
        ∧ (∀ m m' : String,
            SwissException.UnapplicableFeatureException m
              ≠ SwissException.NoValidPairingException m') := by
  intro t
  refine ⟨rfl, ?_, ?_⟩
  · intro m h
    simp [updateAccelerations] at h
  · intro m m' h
    exact SwissException.noConfusion h

/-- C10: the default `updateAccelerations` throws before performing any
mutation: whenever it raises an error on a tournament `t`, the tournament
state after the call is exactly `t`. -/
theorem updateAccelerations_atomic :
    ∀ (t : Tournament) (e : SwissException),
      (updateAccelerations t).1 = Except.error e
        → (updateAccelerations t).2 = t := by
  intro t e _
  rfl

/-- Witness for C10 at a concrete one-player tournament. -/
theorem updateAccelerations_atomic_witness :
    (updateAccelerations
        (Tournament.mk [Player.mk true 0 0 [] [] COLOR_NONE])).2
      = Tournament.mk [Player.mk true 0 0 [] [] COLOR_NONE] :=
  updateAccelerations_atomic
    (Tournament.mk [Player.mk true 0 0 [] [] COLOR_NONE])
    (SwissException.UnapplicableFeatureException
      "The selected Swiss system does not have a default acceleration system.")
    rfl

/-- C7: on two players with identical color histories,
`findFirstColorDifference` returns NONE/NONE; on two histories that differ
only at the earliest round, it returns that earliest round's colors —
scanning backward from the most recent round over the full history. -/
theorem findFirstColorDifference_spec :
    (∀ p q : Player,
        p.colorHistory = q.colorHistory
          → findFirstColorDifference p q = (COLOR_NONE, COLOR_NONE))
      ∧ (∀ (p q : Player) (c0 c1 : Color) (rest : List Color),
          p.colorHistory = c0 :: rest
            → q.colorHistory = c1 :: rest
            → c0 ≠ c1
            → findFirstColorDifference p q = (c0, c1)) := by
  constructor
  · intro p q h
    unfold findFirstColorDifference
    rw [h]
    exact findFirstColorDifferenceScan_self _
  · intro p q c0 c1 rest hp hq hne
    unfold findFirstColorDifference
    rw [hp, hq, List.reverse_cons, List.reverse_cons]
    exact findFirstColorDifferenceScan_append hne _

/-- Witness for C7 at two concrete players whose histories differ only at
the earliest round. -/
theorem findFirstColorDifference_spec_witness :
    findFirstColorDifference
        (Player.mk true 0 0 [] [COLOR_WHITE, COLOR_BLACK] COLOR_NONE)
        (Player.mk true 0 0 [] [COLOR_BLACK, COLOR_BLACK] COLOR_NONE)
      = (COLOR_WHITE, COLOR_BLACK) :=
  findFirstColorDifference_spec.2
    (Player.mk true 0 0 [] [COLOR_WHITE, COLOR_BLACK] COLOR_NONE)
    (Player.mk true 0 0 [] [COLOR_BLACK, COLOR_BLACK] COLOR_NONE)
    COLOR_WHITE COLOR_BLACK [COLOR_BLACK] rfl rfl (by decide)

/-- C8: the Result Orderer's comparison used by `sortResults` is a strict
weak ordering — irreflexive, transitive, with transitive incomparability —
and sorting an already-sorted list of pairings leaves it unchanged. -/
theorem sortResults_strictWeakOrder :
    (∀ (t : Tournament) (p : Pairing), resultsPrecede t p p = false)
      ∧ (∀ (t : Tournament) (p q r : Pairing),
          resultsPrecede t p q = true
            → resultsPrecede t q r = true
            → resultsPrecede t p r = true)
      ∧ (∀ (t : Tournament) (p q r : Pairing),
          resultsPrecede t p q = false → resultsPrecede t q p = false
            → resultsPrecede t q r = false → resultsPrecede t r q = false
            → resultsPrecede t p r = false ∧ resultsPrecede t r p = false)
      ∧ (∀ (t : Tournament) (results : List Pairing),
          List.Sorted (resultsLE t) results
            → sortResults results t = results) := by
  refine ⟨?_, ?_, ?_, ?_⟩
  · intro t p
    simp [resultsPrecede]
  · intro t p q r hpq hqr
    simp only [resultsPrecede, Bool.or_eq_true, Bool.and_eq_true,
      decide_eq_true_eq] at hpq hqr ⊢
    omega
  · intro t p q r hpq hqp hqr hrq
    refine ⟨?_, ?_⟩ <;>
      (simp only [resultsPrecede, Bool.eq_false_iff, ne_eq,
        Bool.or_eq_true, Bool.and_eq_true, decide_eq_true_eq]
          at hpq hqp hqr hrq ⊢ ;
       omega)
  · intro t results h
    exact List.Sorted.insertionSort_eq h

/-- Witness for C8: sorting an already-sorted concrete pair list leaves it
unchanged. -/
theorem sortResults_strictWeakOrder_witness :
    sortResults [Pairing.mk 0 1, Pairing.mk 2 3]
        (Tournament.mk
          [Player.mk true 3 0 [] [] COLOR_NONE,
           Player.mk true 2 0 [] [] COLOR_NONE,
           Player.mk true 1 0 [] [] COLOR_NONE,
           Player.mk true 0 0 [] [] COLOR_NONE])
      = [Pairing.mk 0 1, Pairing.mk 2 3] :=
  sortResults_strictWeakOrder.2.2.2
    (Tournament.mk
      [Player.mk true 3 0 [] [] COLOR_NONE,
       Player.mk true 2 0 [] [] COLOR_NONE,
       Player.mk true 1 0 [] [] COLOR_NONE,
       Player.mk true 0 0 [] [] COLOR_NONE])
    [Pairing.mk 0 1, Pairing.mk 2 3]
    (by decide)

/-- An element of `removals l`, restored as a cons, is a permutation of
`l`. -/
theorem removals_perm {α : Type} :
    ∀ (l : List α) (y : α) (ys : List α),
      (y, ys) ∈ removals l → (y :: ys).Perm l := by
  intro l
  induction l with
  | nil => intro y ys h; simp [removals] at h
  | cons z zs ih =>
    intro y ys h
    simp only [removals, List.mem_cons, List.mem_map, Prod.mk.injEq] at h
    rcases h with ⟨rfl, rfl⟩ | ⟨⟨y', ys'⟩, hmem, heq, heq'⟩
    · exact List.Perm.refl _
    · subst heq
      subst heq'
      exact (List.Perm.swap z y' ys').trans ((ih y' ys' hmem).cons z)

/-- The two members of a pairing built by the three-argument constructor
are the two given players, in some order. -/
theorem ofPlayer0Color_members (x y : Nat) (c : Color) (l : List Nat) :
    ((Pairing.ofPlayer0Color x y c).white
        :: (Pairing.ofPlayer0Color x y c).black :: l).Perm (x :: y :: l) := by
  cases c
  · exact List.Perm.refl _
  · exact List.Perm.swap x y l
  · exact List.Perm.swap x y l

/-- A successful search pairs exactly the players of its input list. -/
theorem searchPairs_perm (t : Tournament) :
    ∀ (fuel : Nat) (l : List Nat) (ps : List Pairing),
      searchPairs t fuel l = some ps → (matchingMembers ps).Perm l := by
  intro fuel
  induction fuel with
  | zero =>
    intro l ps h
    simp [searchPairs] at h
  | succ fuel ih =>
    intro l ps h
    cases l with
    | nil =>
      simp only [searchPairs, Option.some.injEq] at h
      subst h
      exact List.Perm.refl _
    | cons x rest =>
      simp only [searchPairs] at h
      obtain ⟨yr, hmem, hsome⟩ := List.exists_of_findSome?_eq_some h
      obtain ⟨y, ys⟩ := yr
      dsimp only at hsome
      by_cases hc : canPair t x y
      · rw [if_pos hc] at hsome
        obtain ⟨ps', hps', rfl⟩ := Option.map_eq_some'.mp hsome
        have hperm := ih ys ps' hps'
        simp only [matchingMembers]
        refine (ofPlayer0Color_members x y (allocateColor t x y)
          (matchingMembers ps')).trans ?_
        exact (((hperm.cons y).cons x)).trans
          ((removals_perm rest y ys hmem).cons x)
      · rw [if_neg hc] at hsome
        exact absurd hsome (by simp)

/-- The active player list has no duplicate indices. -/
theorem activePlayers_nodup (t : Tournament) : (activePlayers t).Nodup :=
  List.Nodup.filter _ (List.nodup_range _)

/-- Every active player index is a valid index into the player list. -/
theorem activePlayers_lt (t : Tournament) :
    ∀ i ∈ activePlayers t, i < t.players.length := by
  intro i hi
  have := (List.mem_filter.mp hi).1
  exact List.mem_range.mp this

/-- A successful matching computation covers, as a permutation, exactly
the active players: the pairings' members plus the bye, if any. -/
theorem computeMatching_perm (t : Tournament) (ps : List Pairing)
    (bye : Option Nat)
    (h : computeMatching t = Except.ok (ps, bye)) :
    (matchingMembers ps ++ bye.toList).Perm (activePlayers t) := by
  unfold computeMatching at h
  by_cases hpar : (activePlayers t).length % 2 = 0
  · rw [if_pos hpar] at h
    cases hs : searchPairs t ((activePlayers t).length + 1) (activePlayers t) with
    | none => rw [hs] at h; exact absurd h (by simp)
    | some ps' =>
      rw [hs] at h
      simp only [Except.ok.injEq, Prod.mk.injEq] at h
      obtain ⟨rfl, rfl⟩ := h
      simpa using searchPairs_perm t _ _ _ hs
  · rw [if_neg hpar] at h
    cases hf : (byeCandidates t).findSome? (fun b =>
        (searchPairs t ((activePlayers t).length + 1)
            ((activePlayers t).erase b)).map (fun ps => (ps, b))) with
    | none => rw [hf] at h; exact absurd h (by simp)
    | some r =>
      rw [hf] at h
      obtain ⟨b, hbmem, hb⟩ := List.exists_of_findSome?_eq_some hf
      obtain ⟨ps', hps', hr⟩ := Option.map_eq_some'.mp hb
      subst hr
      simp only [Except.ok.injEq, Prod.mk.injEq] at h
      obtain ⟨rfl, rfl⟩ := h
      have hbact : b ∈ activePlayers t :=
        (List.perm_insertionSort (byePriorityLE t) (activePlayers t)).subset hbmem
      have h1 : (matchingMembers ps').Perm ((activePlayers t).erase b) :=
        searchPairs_perm t _ _ _ hps'
      simpa using (h1.append_right [b]).trans
        ((List.perm_append_singleton b ((activePlayers t).erase b)).trans
          (List.perm_cons_erase hbact).symm)

/-- When the members of a pairing list are pairwise distinct, no pairing
in it matches a player against themself. -/
theorem matchingMembers_nodup_ne :
    ∀ ps : List Pairing,
      (matchingMembers ps).Nodup → ∀ p ∈ ps, p.white ≠ p.black := by
  intro ps
  induction ps with
  | nil => intro _ p hp; simp at hp
  | cons q qs ih =>
    intro hnd p hp
    simp only [matchingMembers, List.nodup_cons, List.mem_cons] at hnd hp
    rcases hp with rfl | hp
    · exact fun hEq => hnd.1 (Or.inl hEq)
    · exact ih hnd.2.2 p hp

/-- Both members of every pairing in a list occur among the list's
members. -/
theorem mem_matchingMembers :
    ∀ (ps : List Pairing) (p : Pairing), p ∈ ps →
      p.white ∈ matchingMembers ps ∧ p.black ∈ matchingMembers ps := by
  intro ps
  induction ps with
  | nil => intro p hp; simp at hp
  | cons q qs ih =>
    intro p hp
    simp only [List.mem_cons] at hp
    rcases hp with rfl | hp
    · simp [matchingMembers]
    · have := ih p hp
      simp only [matchingMembers, List.mem_cons]
      exact ⟨Or.inr (Or.inr this.1), Or.inr (Or.inr this.2)⟩

/-- C1: every matching returned by `computeMatching`, together with its
at-most-one bye, covers every active player index exactly once — each
active player appears with multiplicity one across the pairings and the
bye, and no inactive index appears at all. -/
theorem computeMatching_partition (t : Tournament) (ps : List Pairing)
    (bye : Option Nat)
    (h : computeMatching t = Except.ok (ps, bye)) :
    ∀ i : Nat,
      (matchingMembers ps ++ bye.toList).count i
        = if i ∈ activePlayers t then 1 else 0 := by
  intro i
  have hperm := computeMatching_perm t ps bye h
  rw [hperm.count_eq]
  by_cases hi : i ∈ activePlayers t
  · rw [if_pos hi]
    exact List.count_eq_one_of_mem (activePlayers_nodup t) hi
  · rw [if_neg hi]
    exact List.count_eq_zero_of_not_mem hi

/-- C6: every pairing returned by `computeMatching` pairs two distinct,
valid, currently active players: white and black differ, both are active
indices, and both are in range of the player list. -/
theorem computeMatching_pairings_valid (t : Tournament) (ps : List Pairing)
    (bye : Option Nat)
    (h : computeMatching t = Except.ok (ps, bye)) :
    ∀ p ∈ ps,
      p.white ≠ p.black
        ∧ p.white ∈ activePlayers t ∧ p.black ∈ activePlayers t
        ∧ p.white < t.players.length ∧ p.black < t.players.length := by
  intro p hp
  have hperm := computeMatching_perm t ps bye h
  have hnd : (matchingMembers ps ++ bye.toList).Nodup :=
    hperm.symm.nodup (activePlayers_nodup t)
  have hmm : (matchingMembers ps).Nodup := List.Nodup.of_append_left hnd
  have hmem := mem_matchingMembers ps p hp
  have hw : p.white ∈ activePlayers t :=
    hperm.subset (List.mem_append_left _ hmem.1)
  have hb : p.black ∈ activePlayers t :=
    hperm.subset (List.mem_append_left _ hmem.2)
  exact ⟨matchingMembers_nodup_ne ps hmm p hp, hw, hb,
    activePlayers_lt t _ hw, activePlayers_lt t _ hb⟩

/-- Witness for C1 at a concrete four-player tournament: the computed
matching is two pairings with no bye, and player 0 is covered exactly
once. -/
theorem computeMatching_partition_witness :
    (matchingMembers [Pairing.mk 0 1, Pairing.mk 2 3]
        ++ (none : Option Nat).toList).count 0
      = if 0 ∈ activePlayers (Tournament.mk
            [Player.mk true 3 0 [] [] COLOR_NONE,
             Player.mk true 3 0 [] [] COLOR_NONE,
             Player.mk true 1 0 [] [] COLOR_NONE,
             Player.mk true 1 0 [] [] COLOR_NONE])
          then 1 else 0 :=
  computeMatching_partition
    (Tournament.mk
      [Player.mk true 3 0 [] [] COLOR_NONE,
       Player.mk true 3 0 [] [] COLOR_NONE,
       Player.mk true 1 0 [] [] COLOR_NONE,
       Player.mk true 1 0 [] [] COLOR_NONE])
    [Pairing.mk 0 1, Pairing.mk 2 3] none rfl 0

/-- Witness for C6 at a concrete three-player tournament with a bye: the
single returned pairing matches two distinct active players. -/
theorem computeMatching_pairings_valid_witness :
    (Pairing.mk 0 2).white ≠ (Pairing.mk 0 2).black
      ∧ (Pairing.mk 0 2).white ∈ activePlayers (Tournament.mk
            [Player.mk true 2 0 [] [] COLOR_NONE,
             Player.mk true 1 0 [] [] COLOR_NONE,
             Player.mk true 1 0 [] [] COLOR_NONE])
      ∧ (Pairing.mk 0 2).black ∈ activePlayers (Tournament.mk
            [Player.mk true 2 0 [] [] COLOR_NONE,
             Player.mk true 1 0 [] [] COLOR_NONE,
             Player.mk true 1 0 [] [] COLOR_NONE])
      ∧ (Pairing.mk 0 2).white < (Tournament.mk
            [Player.mk true 2 0 [] [] COLOR_NONE,
             Player.mk true 1 0 [] [] COLOR_NONE,
             Player.mk true 1 0 [] [] COLOR_NONE]).players.length
      ∧ (Pairing.mk 0 2).black < (Tournament.mk
            [Player.mk true 2 0 [] [] COLOR_NONE,
             Player.mk true 1 0 [] [] COLOR_NONE,
             Player.mk true 1 0 [] [] COLOR_NONE]).players.length :=
  computeMatching_pairings_valid
    (Tournament.mk
      [Player.mk true 2 0 [] [] COLOR_NONE,
       Player.mk true 1 0 [] [] COLOR_NONE,
       Player.mk true 1 0 [] [] COLOR_NONE])
    [Pairing.mk 0 2] (some 1) rfl (Pairing.mk 0 2) (by decide)

end swisssystems
